import Mathlib

set_option autoImplicit false

/-!
Shallow embedding of the `uninhibited` event library
(`uninhibited/containers.py`, `uninhibited/events.py`) and proofs about it.

Modelling decisions, applied uniformly:
* Python exceptions are values of `PyErr`; a fallible operation returns
  `Except PyErr _` (pure reads) or `Option PyErr × State` (mutating methods,
  whose partial mutations before a raise must be kept).
* A handler is an opaque Python object with identity; its behaviour when
  called is a separate function `call : Handler → α → Except PyErr β`
  (positional fire arguments of type `α`, results of type `β`).  All fire
  calls are modelled with positional arguments only (empty `**kwargs`), as in
  the repository's own tests.
* `sortedcontainers.SortedDict` is modelled as an association list whose keys
  are kept in strictly ascending order by insertion;
  `weakref.WeakKeyDictionary` as a plain association list (garbage-collection
  driven entry removal is not modelled; no claim depends on it).
-/

/-- Python exception classes that appear in the code paths under study.
`valueError`, `keyError`, `attributeError`, `typeError` are the builtins
raised by `list.remove`, `dict.pop`/`dict.__getitem__`, missing-attribute
access and bad calls.  `handlerNotFoundError` and `duplicateHandlerError`
model the exception classes named by the specification; no such classes are
defined anywhere in the repository, so no code path can produce them — they
are present only so the specification's claims can be stated.  `exc n` is an
arbitrary user exception raised inside a handler, tagged by a code. -/
inductive PyErr where
  | valueError
  | keyError
  | attributeError
  | typeError
  | handlerNotFoundError
  | duplicateHandlerError
  | exc (n : Nat)
deriving DecidableEq, Repr

/-- A registered handler: an opaque Python callable with object identity
`hid`.  `imSelf = some o` means the callable is a method bound to the object
with identity `o` (its `im_self` attribute is that object); `imSelf = none`
means a plain function, on which accessing `im_self` raises
`AttributeError`. -/
structure Handler where
  hid : Nat
  imSelf : Option Nat
deriving DecidableEq, Repr

/-- `ListHandlerCollection.__init__`: `self.handlers = list()`. -/
structure ListHandlerCollection where
  handlers : List Handler
deriving DecidableEq, Repr

namespace ListHandlerCollection

/-- `ListHandlerCollection.add_handler`: `self.handlers.append(handler)`.
The body cannot raise, hence the error component is always `none`. -/
def add_handler (c : ListHandlerCollection) (h : Handler) :
    Option PyErr × ListHandlerCollection :=
  (none, ⟨c.handlers ++ [h]⟩)

/-- `ListHandlerCollection.remove_handler`: `self.handlers.remove(handler)`;
`list.remove` drops the first element equal to the handler (`List.erase`)
and raises `ValueError` when the handler is absent, leaving the list
untouched. -/
def remove_handler (c : ListHandlerCollection) (h : Handler) :
    Option PyErr × ListHandlerCollection :=
  if h ∈ c.handlers then (none, ⟨c.handlers.erase h⟩)
  else (some .valueError, c)

/-- `ListHandlerCollection.iter_handlers`: `iter(self.handlers)`, fully
consumed. -/
def iter_handlers (c : ListHandlerCollection) : List Handler :=
  c.handlers

end ListHandlerCollection

/-- Association-list lookup for the `weakref.WeakKeyDictionary` reverse
index (`weakmap[handler]`). -/
def lookupAssoc : List (Handler × Nat) → Handler → Option Nat
  | [], _ => none
  | (g, q) :: r, h => if g = h then some q else lookupAssoc r h

/-- `weakmap[handler] = priority`: replace the existing entry or append. -/
def setAssoc : List (Handler × Nat) → Handler → Nat → List (Handler × Nat)
  | [], h, p => [(h, p)]
  | (g, q) :: r, h, p => if g = h then (h, p) :: r else (g, q) :: setAssoc r h p

/-- `weakmap.pop(handler)`, the removal part (lookup is `lookupAssoc`). -/
def eraseAssoc : List (Handler × Nat) → Handler → List (Handler × Nat)
  | [], _ => []
  | (g, q) :: r, h => if g = h then r else (g, q) :: eraseAssoc r h

/-- `self.map[priority]` on the sorted dict: first (unique) matching key. -/
def lookupKey : List (Nat × List Handler) → Nat → Option (List Handler)
  | [], _ => none
  | (q, l) :: r, p => if p = q then some l else lookupKey r p

/-- In-place replacement of the bucket stored under an existing key
(the effect of mutating `self.map[priority]` through `list.remove`). -/
def setKey : List (Nat × List Handler) → Nat → List Handler → List (Nat × List Handler)
  | [], _, _ => []
  | (q, l) :: r, p, l2 => if p = q then (q, l2) :: r else (q, l) :: setKey r p l2

/-- `del self.map[priority]` on the sorted dict. -/
def eraseKey : List (Nat × List Handler) → Nat → List (Nat × List Handler)
  | [], _ => []
  | (q, l) :: r, p => if p = q then r else (q, l) :: eraseKey r p

/-- The bucket stored under a priority, the empty list when the key is
absent (a proof-side view of `lookupKey`). -/
def bucketD (m : List (Nat × List Handler)) (p : Nat) : List Handler :=
  (lookupKey m p).getD []

/-- The two statements
`if not priority in self.map: self.map[priority] = list()` and
`self.map[priority].append(handler)` on a `SortedDict`: walk the
key-sorted association list; append to the bucket of an existing equal key,
otherwise create the bucket `[h]` at its sorted position. -/
def sdInsert : List (Nat × List Handler) → Nat → Handler → List (Nat × List Handler)
  | [], p, h => [(p, [h])]
  | (q, l) :: r, p, h =>
    if p < q then (p, [h]) :: (q, l) :: r
    else if p = q then (q, l ++ [h]) :: r
    else (q, l) :: sdInsert r p h

/-- Concatenation of all priority buckets in stored (ascending-key) order:
the body of `PriorityHandlerCollection.iter_handlers`. -/
def flatBuckets : List (Nat × List Handler) → List Handler
  | [] => []
  | (_, l) :: r => l ++ flatBuckets r

/-- `SortedDictPriorityHandlerCollection.__init__`:
`self.map = sortedcontainers.SortedDict()`,
`self.weakmap = weakref.WeakKeyDictionary()`. -/
structure SortedDictPriorityHandlerCollection where
  map : List (Nat × List Handler)
  weakmap : List (Handler × Nat)
deriving DecidableEq, Repr

namespace SortedDictPriorityHandlerCollection

/-- The empty store produced by `__init__`. -/
def empty : SortedDictPriorityHandlerCollection := ⟨[], []⟩

/-- `SortedDictPriorityHandlerCollection.add_handler(handler, priority=10)`:
create the bucket if missing, append the handler to it, record the
priority in the reverse index.  No statement in the body can raise. -/
def add_handler (c : SortedDictPriorityHandlerCollection) (h : Handler) (p : Nat) :
    Option PyErr × SortedDictPriorityHandlerCollection :=
  (none, { map := sdInsert c.map p h, weakmap := setAssoc c.weakmap h p })

/-- `SortedDictPriorityHandlerCollection.remove_handler`:
`priority = self.weakmap.pop(handler)` (raises `KeyError` if absent, before
any mutation); then `self.map[priority].remove(handler)` (a missing key
raises `KeyError`, a missing element `ValueError`, after the pop already
mutated the reverse index); then `if not self.map[priority]: del
self.map[priority]`.  The state component carries the mutations performed
before a raise. -/
def remove_handler (c : SortedDictPriorityHandlerCollection) (h : Handler) :
    Option PyErr × SortedDictPriorityHandlerCollection :=
  match lookupAssoc c.weakmap h with
  | none => (some .keyError, c)
  | some p =>
    match lookupKey c.map p with
    | none => (some .keyError, { c with weakmap := eraseAssoc c.weakmap h })
    | some l =>
      if h ∈ l then
        if l.erase h = [] then
          (none, { map := eraseKey c.map p, weakmap := eraseAssoc c.weakmap h })
        else
          (none, { map := setKey c.map p (l.erase h), weakmap := eraseAssoc c.weakmap h })
      else (some .valueError, { c with weakmap := eraseAssoc c.weakmap h })

/-- `SortedDictPriorityHandlerCollection.iter_handlers_by_priority`:
`self.map.iteritems()`, which yields `(priority, bucket)` pairs in
ascending key order — the stored order of the model. -/
def iter_handlers_by_priority (c : SortedDictPriorityHandlerCollection) :
    List (Nat × List Handler) :=
  c.map

/-- `PriorityHandlerCollection.iter_handlers`: for each priority in order,
yield the bucket's handlers. -/
def iter_handlers (c : SortedDictPriorityHandlerCollection) : List Handler :=
  flatBuckets c.map

end SortedDictPriorityHandlerCollection

section Firing

variable {α β : Type}

/-- `list()` of the generator
`((h, self._call_handler(h, args, kwargs)) for h in handlers)`
(`Event._results` applied to a handler sequence, fully consumed):
handlers are called left to right; a handler's exception propagates
immediately — no pair is produced for it, the handlers after it are not
invoked, and the pairs already produced are lost with the generator. -/
def fireList (call : Handler → α → Except PyErr β) (args : α) :
    List Handler → Except PyErr (List (Handler × β))
  | [] => .ok []
  | h :: hs =>
    match call h args with
    | .error e => .error e
    | .ok v =>
      match fireList call args hs with
      | .error e => .error e
      | .ok rest => .ok ((h, v) :: rest)

/-- The iterable that reaches the `handlers` parameter of
`Event._results(self, args, kwargs, handlers=_sentinel)`.  Two iterables
occur in the source: the handler sequence (from `self.handlers`, the
sentinel default), and — through the swapped positional call in
`PriorityEvent.ifire_by_priority`, see `PriorityEvent.ifire_by_priority`
below — the `kwargs` dict of the fire call, empty here because all fire
calls are modelled with positional arguments only. -/
inductive ResultsIterable where
  | handlers (hs : List Handler)
  | emptyKwargsDict
deriving DecidableEq, Repr

/-- `Event._results(args, kwargs, handlers)`, fully consumed: iterate the
given iterable, pairing each iterated element with
`self._call_handler(h, args, kwargs)`.  Iterating the empty kwargs dict
yields no elements, so no handler is called and the result is the empty
list. -/
def Event._results (call : Handler → α → Except PyErr β) (args : α) :
    ResultsIterable → Except PyErr (List (Handler × β))
  | .handlers hs => fireList call args hs
  | .emptyKwargsDict => .ok []

end Firing

/-- `Event.__init__` with the default container factory
`containers.ListHandlerCollection`. -/
structure Event where
  container : ListHandlerCollection
deriving DecidableEq, Repr

namespace Event

variable {α β : Type}

/-- `Event.add`: `self.container.add_handler(handler); return handler`. -/
def add (e : Event) (h : Handler) : Handler × Event :=
  (h, ⟨(e.container.add_handler h).2⟩)

/-- `Event.remove`: `self.container.remove_handler(handler); return handler`. -/
def remove (e : Event) (h : Handler) : Option PyErr × Event :=
  let r := e.container.remove_handler h
  (r.1, ⟨r.2⟩)

/-- The `Event.handlers` property: `self.container.iter_handlers()`. -/
def handlers (e : Event) : List Handler :=
  e.container.iter_handlers

/-- `Event.fire(*args)`: `list(self._results(args, kwargs))` over
`self.handlers`. -/
def fire (call : Handler → α → Except PyErr β) (e : Event) (args : α) :
    Except PyErr (List (Handler × β)) :=
  Event._results call args (.handlers e.handlers)

/-- `Event.ifire(*args)`: returns the `_results` generator; modelled by its
full consumption, which performs the same calls in the same order as
`fire`. -/
def ifire (call : Handler → α → Except PyErr β) (e : Event) (args : α) :
    Except PyErr (List (Handler × β)) :=
  Event._results call args (.handlers e.handlers)

end Event

/-- `PriorityEvent`, whose container factory is
`containers.SortedDictPriorityHandlerCollection`. -/
structure PriorityEvent where
  container : SortedDictPriorityHandlerCollection
deriving DecidableEq, Repr

namespace PriorityEvent

variable {α β : Type}

/-- `PriorityEvent.add(handler, priority=10)`:
`self.container.add_handler(handler, priority=priority); return handler`. -/
def add (e : PriorityEvent) (h : Handler) (p : Nat) : Handler × PriorityEvent :=
  (h, ⟨(e.container.add_handler h p).2⟩)

/-- Inherited `Event.remove` acting on the priority container. -/
def remove (e : PriorityEvent) (h : Handler) : Option PyErr × PriorityEvent :=
  let r := e.container.remove_handler h
  (r.1, ⟨r.2⟩)

/-- The inherited `handlers` property: buckets flattened in ascending
priority order. -/
def handlers (e : PriorityEvent) : List Handler :=
  e.container.iter_handlers

/-- The `handlers_by_priority` property:
`self.container.iter_handlers_by_priority()`. -/
def handlers_by_priority (e : PriorityEvent) : List (Nat × List Handler) :=
  e.container.iter_handlers_by_priority

/-- Inherited `Event.fire` on a `PriorityEvent`: calls every handler in
canonical (priority, insertion) order. -/
def fire (call : Handler → α → Except PyErr β) (e : PriorityEvent) (args : α) :
    Except PyErr (List (Handler × β)) :=
  Event._results call args (.handlers e.handlers)

/-- `PriorityEvent.ifire_by_priority(*args, **kwargs)`: the source builds
`(priority, self._results(handlers, args, kwargs))` for each bucket.  The
call is positional, but the receiving signature is
`_results(self, args, kwargs, handlers=_sentinel)`: the bucket's handler
list lands in the `args` slot, the positional-argument tuple in the
`kwargs` slot, and the `kwargs` dict in the `handlers` slot.  The iterable
`_results` loops over is therefore the kwargs dict — empty here — so the
bucket's handlers are never called and each bucket's result sequence is
empty. -/
def ifire_by_priority (call : Handler → α → Except PyErr β) (e : PriorityEvent)
    (args : α) : List (Nat × Except PyErr (List (Handler × β))) :=
  e.handlers_by_priority.map fun pr =>
    (pr.1, Event._results call args .emptyKwargsDict)

/-- `PriorityEvent.fire_by_priority`:
`[(priority, list(results)) for priority, results in self.ifire_by_priority(...)]`,
with an exception during any `list(results)` propagating out. -/
def fire_by_priority (call : Handler → α → Except PyErr β) (e : PriorityEvent)
    (args : α) : Except PyErr (List (Nat × List (Handler × β))) :=
  (e.ifire_by_priority call args).foldr
    (fun pr acc =>
      match pr.2 with
      | .error er => .error er
      | .ok l =>
        match acc with
        | .error er => .error er
        | .ok rest => .ok ((pr.1, l) :: rest))
    (.ok [])

end PriorityEvent

/-- Flattening of a `fire_by_priority` result: concatenate the per-priority
result-pair lists in the order the buckets were reported (ascending
priority). -/
def flattenResults {β : Type} : List (Nat × List (Handler × β)) → List (Handler × β)
  | [] => []
  | pr :: r => pr.2 ++ flattenResults r

namespace Event

variable {α β : Type}

/-- State-passing form of `Event.fire`.  The body of `fire`/`_results`/
`_call_handler` only reads `self.handlers` and calls the handlers; no
statement assigns to or mutates `self.container`, so the translation
threads the event state through unchanged. -/
def fireSt (call : Handler → α → Except PyErr β) (e : Event) (args : α) :
    Except PyErr (List (Handler × β)) × Event :=
  (Event.fire call e args, e)

/-- State-passing form of `Event.ifire` (the generator fully consumed);
like `fire`, its body never mutates the container. -/
def ifireSt (call : Handler → α → Except PyErr β) (e : Event) (args : α) :
    Except PyErr (List (Handler × β)) × Event :=
  (Event.ifire call e args, e)

/-- `Event.remove_handlers_bound_to_instance`, inner loop.  The source
iterates the *live* list iterator `iter(self.handlers)` while calling
`self -= handler` (which is `list.remove`) on matches: the iterator is a
bare index that is not adjusted when the list shrinks, so removal of the
current element makes the iterator skip the element after it.  `i` is the
iterator's index, `hs` the current list.  `handler.im_self` raises
`AttributeError` on a plain function (Python 2 semantics; on Python 3 the
attribute does not exist on any object, making the loop fail even for
bound methods), and the exception propagates with the removals performed
so far kept. -/
def rbGo (obj : Nat) (hs : List Handler) (i : Nat) : Option PyErr × List Handler :=
  if hlt : i < hs.length then
    let h := hs.get ⟨i, hlt⟩
    match h.imSelf with
    | none => (some .attributeError, hs)
    | some o =>
      if o = obj then
        if hmem : h ∈ hs then rbGo obj (hs.erase h) (i + 1)
        else (some .valueError, hs)
      else rbGo obj hs (i + 1)
  else (none, hs)
termination_by hs.length - i
decreasing_by
  · have h1 : (hs.erase (hs.get ⟨i, hlt⟩)).length = hs.length - 1 :=
      List.length_erase_of_mem hmem
    omega
  · omega

/-- `Event.remove_handlers_bound_to_instance(obj)`:
`for handler in self.handlers: if handler.im_self == obj: self -= handler`. -/
def remove_handlers_bound_to_instance (e : Event) (obj : Nat) :
    Option PyErr × Event :=
  let r := rbGo obj e.container.handlers 0
  (r.1, ⟨⟨r.2⟩⟩)

end Event

namespace PriorityEvent

variable {α β : Type}

/-- State-passing form of the inherited `Event.fire` on a `PriorityEvent`;
the fire path only reads the container. -/
def fireSt (call : Handler → α → Except PyErr β) (e : PriorityEvent) (args : α) :
    Except PyErr (List (Handler × β)) × PriorityEvent :=
  (PriorityEvent.fire call e args, e)

/-- State-passing form of `PriorityEvent.ifire_by_priority`; its body only
reads `self.container.iter_handlers_by_priority()`. -/
def ifire_by_prioritySt (call : Handler → α → Except PyErr β) (e : PriorityEvent)
    (args : α) : List (Nat × Except PyErr (List (Handler × β))) × PriorityEvent :=
  (PriorityEvent.ifire_by_priority call e args, e)

/-- State-passing form of `PriorityEvent.fire_by_priority`; its body only
consumes `ifire_by_priority`. -/
def fire_by_prioritySt (call : Handler → α → Except PyErr β) (e : PriorityEvent)
    (args : α) : Except PyErr (List (Nat × List (Handler × β))) × PriorityEvent :=
  (PriorityEvent.fire_by_priority call e args, e)

end PriorityEvent

/-! Specification-side descriptions of the canonical iteration order
(§8 of the spec: priority ascending, insertion order within a priority),
written independently of the store: `keyInsert`/`specKeys` build the
ascending list of distinct priorities in the order a sorted set would hold
them, and `gatherByKeys` lists, for each priority in turn, the handlers
registered at that priority in registration order. -/

/-- Insert a priority into an ascending list of distinct priorities
(no change when already present). -/
def keyInsert (p : Nat) : List Nat → List Nat
  | [] => [p]
  | q :: r =>
    if p < q then p :: q :: r
    else if p = q then q :: r
    else q :: keyInsert p r

/-- The ascending list of distinct priorities used by a sequence of
`add` calls (`ops` lists `(handler, priority)` pairs in call order). -/
def specKeys (ops : List (Handler × Nat)) : List Nat :=
  ops.foldl (fun ks x => keyInsert x.2 ks) []

/-- For each priority in `ks` in turn, the handlers of `ops` registered at
that priority, in registration order. -/
def gatherByKeys (ops : List (Handler × Nat)) : List Nat → List Handler
  | [] => []
  | p :: ks => (ops.filter (fun x => x.2 = p)).map (fun x => x.1) ++ gatherByKeys ops ks

/-- Run a sequence of `add_handler` calls on a fresh
`SortedDictPriorityHandlerCollection`. -/
def addAll (ops : List (Handler × Nat)) : SortedDictPriorityHandlerCollection :=
  ops.foldl (fun c x => (c.add_handler x.1 x.2).2)
    SortedDictPriorityHandlerCollection.empty

/-- One registry mutation on the priority store: an `add_handler` call (at
some priority) or a `remove_handler` call. -/
inductive SDOp where
  | addOp (h : Handler) (p : Nat)
  | removeOp (h : Handler)
deriving DecidableEq, Repr

/-- Apply one mutation, keeping the store a raised call leaves behind. -/
def applySDOp (c : SortedDictPriorityHandlerCollection) :
    SDOp → SortedDictPriorityHandlerCollection
  | .addOp h p => (c.add_handler h p).2
  | .removeOp h => (c.remove_handler h).2

/-- Apply a sequence of mutations to a fresh priority store. -/
def applySDOps (ops : List SDOp) : SortedDictPriorityHandlerCollection :=
  ops.foldl applySDOp SortedDictPriorityHandlerCollection.empty

/-! Concrete fixtures used by witnesses and counterexamples: plain
functions `hA`, `hB`, `hC` (no `im_self`), a raising handler `hBad`, two
methods `mO1`, `mO2` bound to the object with identity `7`, and a call
behaviour `callFx` under which every handler returns `10 * hid + arg`
except `hBad`, which raises the user exception `exc 42`. -/

def hA : Handler := ⟨1, none⟩

def hBad : Handler := ⟨2, none⟩

def hB : Handler := ⟨3, none⟩

def hC : Handler := ⟨4, none⟩

def mO1 : Handler := ⟨5, some 7⟩

def mO2 : Handler := ⟨6, some 7⟩

def callFx : Handler → Nat → Except PyErr Nat := fun h a =>
  if h.hid = 2 then .error (.exc 42) else .ok (10 * h.hid + a)

/-- An `Event` holding the plain handlers `[hA, hB, hC]`, built by three
`add` calls. -/
def evABC : Event :=
  ((((⟨⟨[]⟩⟩ : Event).add hA).2.add hB).2.add hC).2

/-- An `Event` holding `[hA, hBad, hC]`: a raising handler between two
plain ones. -/
def evWithBad : Event :=
  ((((⟨⟨[]⟩⟩ : Event).add hA).2.add hBad).2.add hC).2

/-- A `PriorityEvent` holding the single handler `hA` at priority `10`. -/
def peA : PriorityEvent :=
  ((⟨SortedDictPriorityHandlerCollection.empty⟩ : PriorityEvent).add hA 10).2

/-- An `Event` holding two methods bound to the same object `7`,
registered consecutively. -/
def evBound : Event :=
  (((⟨⟨[]⟩⟩ : Event).add mO1).2.add mO2).2

/-- An `Event` holding the single plain function `hA`. -/
def evA : Event :=
  ((⟨⟨[]⟩⟩ : Event).add hA).2

/-! ### Helper lemmas -/

/-- Consuming `_results` over `pre ++ h :: post`: when every handler of
`pre` returns a value and `h` raises `er`, the whole consumption raises
`er` (no pair list is produced, and the handlers of `post` never
contribute). -/
theorem fireList_error_inside {α β : Type} (call : Handler → α → Except PyErr β)
    (args : α) (h : Handler) (er : PyErr) (post : List Handler)
    (hb : call h args = .error er) :
    ∀ pre : List Handler, (∀ g ∈ pre, ∃ v, call g args = Except.ok v) →
      fireList call args (pre ++ h :: post) = .error er := by
  intro pre
  induction pre with
  | nil =>
    intro _
    simp [fireList, hb]
  | cons g rest ih =>
    intro hok
    obtain ⟨v, hv⟩ := hok g (List.mem_cons_self g rest)
    have h2 := ih fun x hx => hok x (List.mem_cons_of_mem g hx)
    simp [fireList, hv, h2]

/-- `sdInsert` splices the new handler into the bucket concatenation:
the flattened store is the old flattened store with `h` inserted at one
position. -/
theorem flatBuckets_sdInsert (m : List (Nat × List Handler)) (p : Nat) (h : Handler) :
    ∃ l1 l2, flatBuckets m = l1 ++ l2 ∧
      flatBuckets (sdInsert m p h) = l1 ++ h :: l2 := by
  induction m with
  | nil =>
    exact ⟨[], [], rfl, rfl⟩
  | cons e r ih =>
    obtain ⟨q, l⟩ := e
    by_cases h1 : p < q
    · exact ⟨[], l ++ flatBuckets r, rfl, by simp [sdInsert, h1, flatBuckets]⟩
    · by_cases h2 : p = q
      · exact ⟨l, flatBuckets r, rfl, by simp [sdInsert, h1, h2, flatBuckets]⟩
      · obtain ⟨l1, l2, e1, e2⟩ := ih
        refine ⟨l ++ l1, l2, ?_, ?_⟩
        · simp [flatBuckets, e1]
        · simp [sdInsert, h1, h2, flatBuckets, e2]

/-- Each `add_handler` call on the priority store increases the number of
occurrences of the added handler in the flattened iteration by exactly
one. -/
theorem count_add_handler (c : SortedDictPriorityHandlerCollection)
    (h : Handler) (p : Nat) :
    ((c.add_handler h p).2.iter_handlers).count h = c.iter_handlers.count h + 1 := by
  obtain ⟨l1, l2, e1, e2⟩ := flatBuckets_sdInsert c.map p h
  simp [SortedDictPriorityHandlerCollection.add_handler,
    SortedDictPriorityHandlerCollection.iter_handlers, e1, e2, List.count_append,
    List.count_cons]
  omega

/-! ### Claim theorems -/

/-- C10: `Event.add` and `PriorityEvent.add` register the handler and
return the very handler that was passed in, so `add` can be used as a
decorator. -/
theorem add_returns_the_handler (e : Event) (pe : PriorityEvent) (h : Handler)
    (p : Nat) :
    (e.add h).1 = h ∧ (pe.add h p).1 = h :=
  ⟨rfl, rfl⟩

/-- C8: the fire family only reads the handler store: in state-passing
form, `fire`, `ifire`, `fire_by_priority` and `ifire_by_priority` all
return the event state unchanged, whatever the handlers and arguments
(handlers themselves are opaque values here and cannot reach back into the
registry). -/
theorem firing_never_mutates_the_store {α β : Type}
    (call : Handler → α → Except PyErr β) (e : Event) (pe : PriorityEvent)
    (args : α) :
    (Event.fireSt call e args).2 = e ∧
    (Event.ifireSt call e args).2 = e ∧
    (PriorityEvent.fireSt call pe args).2 = pe ∧
    (PriorityEvent.ifire_by_prioritySt call pe args).2 = pe ∧
    (PriorityEvent.fire_by_prioritySt call pe args).2 = pe :=
  ⟨rfl, rfl, rfl, rfl, rfl⟩

/-- C3: on an `Event` whose handler list is `[h1, h2, h3]`, with each
handler returning a plain value, `fire` returns exactly
`[(h1, v1), (h2, v2), (h3, v3)]` in that order. -/
theorem fire_returns_ordered_result_pairs {α β : Type}
    (call : Handler → α → Except PyErr β) (e : Event) (h1 h2 h3 : Handler)
    (args : α) (v1 v2 v3 : β)
    (hs : e.handlers = [h1, h2, h3])
    (c1 : call h1 args = .ok v1) (c2 : call h2 args = .ok v2)
    (c3 : call h3 args = .ok v3) :
    Event.fire call e args = .ok [(h1, v1), (h2, v2), (h3, v3)] := by
  have he : Event.fire call e args = fireList call args e.handlers := rfl
  rw [he, hs]
  simp [fireList, c1, c2, c3]

/-- Witness for C3 on the concrete event `evABC` and behaviour `callFx`. -/
theorem fire_returns_ordered_result_pairs_witness :
    Event.fire callFx evABC 100 = .ok [(hA, 110), (hB, 130), (hC, 140)] :=
  fire_returns_ordered_result_pairs callFx evABC hA hB hC 100 110 130 140
    rfl rfl rfl rfl

/-- C1 counterexample: on `evWithBad = [hA, hBad, hC]`, where `hBad`
raises the user exception `exc 42`, `Event.fire` does not return a result
list with the error captured in `hBad`'s pair — the exception escapes
`fire` itself. -/
theorem fire_lets_handler_exception_escape :
    Event.fire callFx evWithBad 100 = .error (.exc 42) ∧
    (Event.fire callFx evWithBad 100).isOk = false :=
  ⟨rfl, rfl⟩

/-- C1 (amended): `Event._call_handler` has no `try`/`except`, so when a
handler raises while every handler before it returned a value, the
exception propagates out of `fire` (and out of consuming `ifire`) to the
caller; no Result-Pair list is produced and the handlers after the raising
one are not invoked. -/
theorem handler_exception_propagates_out_of_fire {α β : Type}
    (call : Handler → α → Except PyErr β) (e : Event) (args : α)
    (pre post : List Handler) (h : Handler) (er : PyErr)
    (hs : e.handlers = pre ++ h :: post)
    (hok : ∀ g ∈ pre, ∃ v, call g args = Except.ok v)
    (hb : call h args = .error er) :
    Event.fire call e args = .error er ∧ Event.ifire call e args = .error er := by
  have h1 := fireList_error_inside call args h er post hb pre hok
  have he : Event.fire call e args = fireList call args e.handlers := rfl
  have hi : Event.ifire call e args = fireList call args e.handlers := rfl
  rw [he, hi, hs]
  exact ⟨h1, h1⟩

/-- Witness for the amended C1 on `evWithBad`. -/
theorem handler_exception_propagates_out_of_fire_witness :
    Event.fire callFx evWithBad 100 = .error (.exc 42) ∧
    Event.ifire callFx evWithBad 100 = .error (.exc 42) :=
  handler_exception_propagates_out_of_fire callFx evWithBad 100 [hA] [hC] hBad
    (.exc 42) rfl
    (by
      intro g hg
      rw [List.mem_singleton] at hg
      subst hg
      exact ⟨110, rfl⟩)
    rfl

/-- C2: `PriorityEvent.ifire_by_priority` passes
`self._results(handlers, args, kwargs)` positionally into
`_results(self, args, kwargs, handlers=_sentinel)`, so the empty kwargs
dict is iterated instead of the bucket's handlers: on the one-handler
event `peA`, `fire` returns the handler's Result Pair but
`fire_by_priority` returns an empty pair list for the bucket, and the
flattening of `fire_by_priority`'s output is empty rather than equal to
`fire`'s output. -/
theorem fire_by_priority_loses_all_results :
    PriorityEvent.fire callFx peA 100 = .ok [(hA, 110)] ∧
    PriorityEvent.fire_by_priority callFx peA 100 = .ok [(10, [])] ∧
    flattenResults [((10 : Nat), ([] : List (Handler × Nat)))] ≠ [(hA, (110 : Nat))] := by
  refine ⟨rfl, rfl, ?_⟩
  decide

/-- C4 counterexample: removing a never-added handler raises the builtin
`KeyError` (priority store: `weakmap.pop`) or `ValueError` (list store:
`list.remove`), not an exception class named `HandlerNotFoundError` — no
such class exists in the repository. -/
theorem remove_absent_raises_builtin_errors :
    (SortedDictPriorityHandlerCollection.empty.remove_handler hA).1
      = some PyErr.keyError ∧
    ((⟨[]⟩ : ListHandlerCollection).remove_handler hA).1 = some PyErr.valueError ∧
    some PyErr.keyError ≠ some PyErr.handlerNotFoundError ∧
    some PyErr.valueError ≠ some PyErr.handlerNotFoundError := by
  refine ⟨rfl, rfl, ?_, ?_⟩ <;> decide

/-- C4 (amended): removing a handler that is not registered fails with a
builtin exception — `KeyError` from the priority store's `weakmap.pop`,
`ValueError` from the list store's `list.remove` — and the store is left
exactly as it was. -/
theorem remove_absent_fails_and_preserves_store
    (c : SortedDictPriorityHandlerCollection) (cl : ListHandlerCollection)
    (h : Handler)
    (hw : lookupAssoc c.weakmap h = none) (hl : h ∉ cl.handlers) :
    c.remove_handler h = (some PyErr.keyError, c) ∧
    cl.remove_handler h = (some PyErr.valueError, cl) := by
  constructor
  · unfold SortedDictPriorityHandlerCollection.remove_handler
    rw [hw]
  · unfold ListHandlerCollection.remove_handler
    rw [if_neg hl]

/-- Witness for the amended C4 on the empty stores. -/
theorem remove_absent_fails_and_preserves_store_witness :
    SortedDictPriorityHandlerCollection.empty.remove_handler hA
      = (some PyErr.keyError, SortedDictPriorityHandlerCollection.empty) ∧
    (⟨[]⟩ : ListHandlerCollection).remove_handler hA
      = (some PyErr.valueError, (⟨[]⟩ : ListHandlerCollection)) :=
  remove_absent_fails_and_preserves_store SortedDictPriorityHandlerCollection.empty
    ⟨[]⟩ hA rfl (by decide)

/-- C5 counterexample: adding an already-present handler again completes
normally (no error value, in particular not `DuplicateHandlerError` — the
stores have no duplicate check and no such class exists), and iterating
then yields the handler twice. -/
theorem duplicate_add_succeeds_and_yields_twice :
    ((SortedDictPriorityHandlerCollection.empty.add_handler hA 10).2.add_handler
        hA 10).1 = none ∧
    ((SortedDictPriorityHandlerCollection.empty.add_handler hA 10).2.add_handler
        hA 10).2.iter_handlers = [hA, hA] ∧
    (none : Option PyErr) ≠ some PyErr.duplicateHandlerError := by
  refine ⟨rfl, rfl, ?_⟩
  decide

/-- C5 (amended): `add_handler` is unconditional on both stores — there is
no duplicates-disallowed configuration and it never raises — and adding a
handler twice at the same priority makes iteration yield it twice: on the
priority store each add increases the handler's occurrence count in
`iter_handlers` by one, and on the list store two adds append the handler
twice. -/
theorem add_always_allows_duplicates (c : SortedDictPriorityHandlerCollection)
    (cl : ListHandlerCollection) (h : Handler) (p : Nat) :
    (c.add_handler h p).1 = none ∧
    ((c.add_handler h p).2.add_handler h p).1 = none ∧
    ((c.add_handler h p).2.add_handler h p).2.iter_handlers.count h
      = c.iter_handlers.count h + 2 ∧
    ((cl.add_handler h).2.add_handler h).2.iter_handlers
      = cl.handlers ++ [h, h] := by
  refine ⟨rfl, rfl, ?_, ?_⟩
  · rw [count_add_handler, count_add_handler]
  · simp [ListHandlerCollection.add_handler, ListHandlerCollection.iter_handlers]

/-- C7: `remove_handlers_bound_to_instance` iterates the live list
iterator while removing from the list, so removing the current match makes
the iterator skip the next handler: with two methods of object `7`
registered consecutively, only the first is removed and `mO2` stays
registered.  And with a plain function registered, the `handler.im_self`
attribute access raises `AttributeError` instead of the documented silent
no-op. -/
theorem remove_bound_skips_and_raises :
    Event.remove_handlers_bound_to_instance evBound 7 = (none, ⟨⟨[mO2]⟩⟩) ∧
    Event.remove_handlers_bound_to_instance evA 9
      = (some PyErr.attributeError, evA) := by
  constructor
  · show (let r := Event.rbGo 7 [mO1, mO2] 0; (r.1, ⟨⟨r.2⟩⟩) : Option PyErr × Event)
      = (none, ⟨⟨[mO2]⟩⟩)
    rw [Event.rbGo]
    simp [mO1, mO2, List.erase]
    rw [Event.rbGo]
    simp
  · show (let r := Event.rbGo 9 [hA] 0; (r.1, ⟨⟨r.2⟩⟩) : Option PyErr × Event)
      = (some PyErr.attributeError, evA)
    rw [Event.rbGo]
    simp [hA, evA, Event.add, ListHandlerCollection.add_handler]

/-- Entries surviving `eraseKey` were entries of the original map. -/
theorem mem_eraseKey {m : List (Nat × List Handler)} {p : Nat}
    {x : Nat × List Handler} (hx : x ∈ eraseKey m p) : x ∈ m := by
  induction m with
  | nil => cases hx
  | cons e r ih =>
    obtain ⟨q, l⟩ := e
    by_cases h1 : p = q
    · simp only [eraseKey, if_pos h1] at hx
      exact List.mem_cons_of_mem _ hx
    · simp only [eraseKey, if_neg h1, List.mem_cons] at hx
      rcases hx with h2 | h2
      · exact List.mem_cons.2 (Or.inl h2)
      · exact List.mem_cons_of_mem _ (ih h2)

/-- An entry of `setKey m p l2` either carries the new bucket `l2` or was
an entry of the original map. -/
theorem mem_setKey {m : List (Nat × List Handler)} {p : Nat}
    {l2 : List Handler} {x : Nat × List Handler} (hx : x ∈ setKey m p l2) :
    x.2 = l2 ∨ x ∈ m := by
  induction m with
  | nil => cases hx
  | cons e r ih =>
    obtain ⟨q, l⟩ := e
    by_cases h1 : p = q
    · simp only [setKey, if_pos h1, List.mem_cons] at hx
      rcases hx with h2 | h2
      · exact Or.inl (by rw [h2])
      · exact Or.inr (List.mem_cons_of_mem _ h2)
    · simp only [setKey, if_neg h1, List.mem_cons] at hx
      rcases hx with h2 | h2
      · exact Or.inr (List.mem_cons.2 (Or.inl h2))
      · rcases ih h2 with h3 | h3
        · exact Or.inl h3
        · exact Or.inr (List.mem_cons_of_mem _ h3)

/-- `sdInsert` never creates an empty bucket: a fresh bucket is `[h]` and
an existing bucket only grows. -/
theorem sdInsert_nonempty {m : List (Nat × List Handler)} {p : Nat} {h : Handler}
    (hP : ∀ x ∈ m, x.2 ≠ []) :
    ∀ x ∈ sdInsert m p h, x.2 ≠ [] := by
  induction m with
  | nil =>
    intro x hx
    simp only [sdInsert, List.mem_singleton] at hx
    simp [hx]
  | cons e r ih =>
    obtain ⟨q, l⟩ := e
    intro x hx
    by_cases h1 : p < q
    · simp only [sdInsert, if_pos h1, List.mem_cons] at hx
      rcases hx with h2 | h2
      · simp [h2]
      · exact hP x (List.mem_cons.2 h2)
    · by_cases h2 : p = q
      · simp only [sdInsert, if_neg h1, if_pos h2, List.mem_cons] at hx
        rcases hx with h3 | h3
        · simp [h3]
        · exact hP x (List.mem_cons_of_mem _ h3)
      · simp only [sdInsert, if_neg h1, if_neg h2, List.mem_cons] at hx
        rcases hx with h3 | h3
        · exact hP x (List.mem_cons.2 (Or.inl h3))
        · exact ih (fun y hy => hP y (List.mem_cons_of_mem _ hy)) x h3

/-- `add_handler` preserves "every bucket is non-empty". -/
theorem add_handler_preserves_nonempty (c : SortedDictPriorityHandlerCollection)
    (h : Handler) (p : Nat) (hP : ∀ x ∈ c.map, x.2 ≠ []) :
    ∀ x ∈ ((c.add_handler h p).2).map, x.2 ≠ [] :=
  sdInsert_nonempty hP

/-- `remove_handler` preserves "every bucket is non-empty": the error
paths leave the map untouched, and the success path either rewrites the
bucket to a non-empty remainder or deletes it. -/
theorem remove_handler_preserves_nonempty (c : SortedDictPriorityHandlerCollection)
    (h : Handler) (hP : ∀ x ∈ c.map, x.2 ≠ []) :
    ∀ x ∈ ((c.remove_handler h).2).map, x.2 ≠ [] := by
  intro x hx
  unfold SortedDictPriorityHandlerCollection.remove_handler at hx
  split at hx
  · exact hP x hx
  · split at hx
    · exact hP x hx
    · split at hx
      · split at hx
        · exact hP x (mem_eraseKey hx)
        · rename_i hne
          rcases mem_setKey hx with h1 | h1
          · rw [h1]; exact hne
          · exact hP x h1
      · exact hP x hx

/-- Any sequence of `add_handler`/`remove_handler` calls keeps every
bucket non-empty, starting from a store satisfying that. -/
theorem applySDOp_foldl_nonempty (ops : List SDOp) :
    ∀ c : SortedDictPriorityHandlerCollection, (∀ x ∈ c.map, x.2 ≠ []) →
      ∀ x ∈ (ops.foldl applySDOp c).map, x.2 ≠ [] := by
  induction ops with
  | nil => intro c hP; exact hP
  | cons op r ih =>
    intro c hP
    refine ih (applySDOp c op) ?_
    cases op with
    | addOp h p => exact add_handler_preserves_nonempty c h p hP
    | removeOp h => exact remove_handler_preserves_nonempty c h hP

/-- C9: after every sequence of `add_handler` and `remove_handler` calls
on a fresh priority store, every priority key present maps to a non-empty
handler list: `remove_handler` deletes a bucket as soon as it empties, and
`add_handler` never creates an empty one. -/
theorem priority_buckets_never_empty (ops : List SDOp) (p : Nat)
    (l : List Handler) (hx : (p, l) ∈ (applySDOps ops).map) : l ≠ [] :=
  applySDOp_foldl_nonempty ops SortedDictPriorityHandlerCollection.empty
    (by intro x hx2; cases hx2) (p, l) hx

/-- Witness for C9: one add produces the bucket `(10, [hA])`, which is
non-empty. -/
theorem priority_buckets_never_empty_witness :
    ((10 : Nat), [hA]) ∈ (applySDOps [SDOp.addOp hA 10]).map ∧ [hA] ≠ [] :=
  ⟨by decide, priority_buckets_never_empty [SDOp.addOp hA 10] 10 [hA] (by decide)⟩

/-- `sdInsert` transforms the key list exactly as `keyInsert` does. -/
theorem keys_sdInsert (m : List (Nat × List Handler)) (p : Nat) (h : Handler) :
    (sdInsert m p h).map (fun x => x.1) = keyInsert p (m.map (fun x => x.1)) := by
  induction m with
  | nil => rfl
  | cons e r ih =>
    obtain ⟨q, l⟩ := e
    by_cases h1 : p < q
    · simp [sdInsert, keyInsert, h1]
    · by_cases h2 : p = q
      · simp [sdInsert, keyInsert, h1, h2]
      · simp [sdInsert, keyInsert, h1, h2, ih]

/-- Members of `keyInsert p ks` are `p` or members of `ks`. -/
theorem mem_keyInsert {a p : Nat} {ks : List Nat} (ha : a ∈ keyInsert p ks) :
    a = p ∨ a ∈ ks := by
  induction ks with
  | nil =>
    simp only [keyInsert, List.mem_singleton] at ha
    exact Or.inl ha
  | cons q r ih =>
    by_cases h1 : p < q
    · simp only [keyInsert, if_pos h1, List.mem_cons] at ha
      rcases ha with h2 | h2
      · exact Or.inl h2
      · exact Or.inr (List.mem_cons.2 h2)
    · by_cases h2 : p = q
      · simp only [keyInsert, if_neg h1, if_pos h2] at ha
        exact Or.inr ha
      · simp only [keyInsert, if_neg h1, if_neg h2, List.mem_cons] at ha
        rcases ha with h3 | h3
        · exact Or.inr (List.mem_cons.2 (Or.inl h3))
        · rcases ih h3 with h4 | h4
          · exact Or.inl h4
          · exact Or.inr (List.mem_cons_of_mem _ h4)

/-- `keyInsert` keeps a strictly ascending key list strictly ascending. -/
theorem keyInsert_sorted {ks : List Nat} (p : Nat)
    (hs : List.Sorted (· < ·) ks) : List.Sorted (· < ·) (keyInsert p ks) := by
  induction ks with
  | nil => simp [keyInsert]
  | cons q r ih =>
    obtain ⟨hq, hr⟩ := List.sorted_cons.1 hs
    by_cases h1 : p < q
    · rw [keyInsert, if_pos h1]
      refine List.sorted_cons.2 ⟨?_, hs⟩
      intro b hb
      rcases List.mem_cons.1 hb with h2 | h2
      · subst h2; exact h1
      · exact Nat.lt_trans h1 (hq b h2)
    · by_cases h2 : p = q
      · rw [keyInsert, if_neg h1, if_pos h2]
        exact hs
      · rw [keyInsert, if_neg h1, if_neg h2]
        refine List.sorted_cons.2 ⟨?_, ih hr⟩
        intro b hb
        rcases mem_keyInsert hb with h3 | h3
        · rw [h3]
          exact Nat.lt_of_le_of_ne (Nat.le_of_not_lt h1) fun he => h2 he.symm
        · exact hq b h3

/-- A key that occurs in no entry looks up to nothing. -/
theorem lookupKey_eq_none {m : List (Nat × List Handler)} {p : Nat}
    (hp : p ∉ m.map (fun x => x.1)) : lookupKey m p = none := by
  induction m with
  | nil => rfl
  | cons e r ih =>
    obtain ⟨q, l⟩ := e
    simp only [List.map_cons, List.mem_cons] at hp
    push_neg at hp
    rw [lookupKey, if_neg hp.1]
    exact ih hp.2

/-- How `sdInsert` changes each bucket, on a store with strictly ascending
keys: the target priority's bucket gains `h` at its tail, every other
bucket is unchanged. -/
theorem bucketD_sdInsert {m : List (Nat × List Handler)}
    (hs : List.Sorted (· < ·) (m.map (fun x => x.1))) (p : Nat) (h : Handler)
    (q : Nat) :
    bucketD (sdInsert m p h) q
      = if q = p then bucketD m p ++ [h] else bucketD m q := by
  induction m with
  | nil =>
    by_cases hq : q = p
    · simp [sdInsert, bucketD, lookupKey, hq]
    · simp [sdInsert, bucketD, lookupKey, hq]
  | cons e r ih =>
    obtain ⟨k, l⟩ := e
    simp only [List.map_cons] at hs
    obtain ⟨hk, hr⟩ := List.sorted_cons.1 hs
    by_cases h1 : p < k
    · have hpk : ¬p = k := Nat.ne_of_lt h1
      have hnone : lookupKey r p = none :=
        lookupKey_eq_none fun hc => Nat.lt_asymm h1 (hk p hc)
      by_cases hq : q = p
      · subst hq
        simp [sdInsert, if_pos h1, bucketD, lookupKey, hpk, hnone]
      · simp [sdInsert, if_pos h1, bucketD, lookupKey, hq]
    · by_cases h2 : p = k
      · subst h2
        by_cases hq : q = p
        · subst hq
          simp [sdInsert, if_neg h1, bucketD, lookupKey]
        · simp [sdInsert, if_neg h1, bucketD, lookupKey, hq]
      · by_cases hq : q = k
        · have hqp : ¬q = p := fun he => h2 (he.symm.trans hq)
          subst hq
          simp [sdInsert, if_neg h1, if_neg h2, bucketD, lookupKey, hqp]
        · have := ih hr
          simp only [bucketD] at this
          simp [sdInsert, if_neg h1, if_neg h2, bucketD, lookupKey, hq, h2, this]

/-- Invariant of any sequence of `add_handler` calls on a fresh priority
store: the stored keys are exactly `specKeys ops` (hence strictly
ascending), and the bucket of every priority `q` holds exactly the
handlers registered at `q`, in registration order. -/
theorem addAll_invariant (ops : List (Handler × Nat)) :
    (addAll ops).map.map (fun x => x.1) = specKeys ops ∧
    List.Sorted (· < ·) (specKeys ops) ∧
    ∀ q : Nat, bucketD (addAll ops).map q
      = (ops.filter (fun y => y.2 = q)).map (fun y => y.1) := by
  induction ops using List.reverseRecOn with
  | nil =>
    refine ⟨rfl, by simp [specKeys], ?_⟩
    intro q
    simp [addAll, SortedDictPriorityHandlerCollection.empty, bucketD, lookupKey]
  | append_singleton ops z ih =>
    obtain ⟨ik, is, ib⟩ := ih
    have hAdd : addAll (ops ++ [z]) = ((addAll ops).add_handler z.1 z.2).2 := by
      simp [addAll, List.foldl_append]
    have hSpec : specKeys (ops ++ [z]) = keyInsert z.2 (specKeys ops) := by
      simp [specKeys, List.foldl_append]
    have hMap : ((addAll ops).add_handler z.1 z.2).2.map
        = sdInsert (addAll ops).map z.2 z.1 := rfl
    have hSorted : List.Sorted (· < ·) ((addAll ops).map.map (fun x => x.1)) := by
      rw [ik]; exact is
    refine ⟨?_, ?_, ?_⟩
    · rw [hAdd, hSpec, ← ik, hMap]
      exact keys_sdInsert (addAll ops).map z.2 z.1
    · rw [hSpec]
      exact keyInsert_sorted z.2 is
    · intro q
      rw [hAdd, hMap, bucketD_sdInsert hSorted z.2 z.1 q, List.filter_append,
        List.map_append]
      by_cases hq : q = z.2
      · subst hq
        rw [if_pos rfl, ib z.2]
        simp [List.filter]
      · have hzq : ¬z.2 = q := fun he => hq he.symm
        rw [if_neg hq, ib q]
        simp [List.filter, hzq]

/-- With duplicate-free keys, each entry of the map is what its key looks
up to. -/
theorem lookupKey_of_mem_nodup {m : List (Nat × List Handler)}
    (hnd : (m.map (fun x => x.1)).Nodup) {q : Nat} {l : List Handler}
    (hm : (q, l) ∈ m) : lookupKey m q = some l := by
  induction m with
  | nil => cases hm
  | cons e r ih =>
    obtain ⟨k, l0⟩ := e
    simp only [List.map_cons, List.nodup_cons] at hnd
    rcases List.mem_cons.1 hm with h1 | h1
    · obtain ⟨e1, e2⟩ := Prod.mk.inj h1
      subst e1
      subst e2
      simp [lookupKey]
    · have hne : ¬q = k := by
        intro he
        subst he
        exact hnd.1 (List.mem_map.2 ⟨(q, l), h1, rfl⟩)
      simp only [lookupKey, if_neg hne]
      exact ih hnd.2 h1

/-- When every entry's bucket is the registration-order filter of `ops` at
its key, the flattened store equals the spec-side gathering over the
stored key list. -/
theorem flatBuckets_eq_gather (ops : List (Handler × Nat)) :
    ∀ m : List (Nat × List Handler),
      (∀ x ∈ m, x.2 = (ops.filter (fun y => y.2 = x.1)).map (fun y => y.1)) →
      flatBuckets m = gatherByKeys ops (m.map (fun x => x.1)) := by
  intro m
  induction m with
  | nil => intro _; rfl
  | cons e r ih =>
    intro hb
    obtain ⟨k, l⟩ := e
    have h1 : l = (ops.filter (fun y => y.2 = k)).map (fun y => y.1) :=
      hb (k, l) (List.mem_cons_self _ _)
    have h2 := ih fun x hx => hb x (List.mem_cons_of_mem _ hx)
    simp only [flatBuckets, gatherByKeys, List.map_cons]
    rw [h1, h2]

/-- C6: after any sequence of `add_handler` calls with pairwise-distinct
handlers at arbitrary priorities, iterating the priority store yields all
registered handlers grouped by strictly ascending priority
(`specKeys ops` is sorted) and, within each priority, in registration
order (`gatherByKeys`). -/
theorem iterate_yields_priority_then_insertion_order
    (ops : List (Handler × Nat)) (_hd : (ops.map (fun x => x.1)).Nodup) :
    List.Sorted (· < ·) (specKeys ops) ∧
    (addAll ops).iter_handlers = gatherByKeys ops (specKeys ops) := by
  obtain ⟨ik, is, ib⟩ := addAll_invariant ops
  refine ⟨is, ?_⟩
  have hnd : ((addAll ops).map.map (fun x => x.1)).Nodup := by
    rw [ik]
    exact is.nodup
  have hmem : ∀ x ∈ (addAll ops).map,
      x.2 = (ops.filter (fun y => y.2 = x.1)).map (fun y => y.1) := by
    intro x hx
    obtain ⟨q, l⟩ := x
    have hlk := lookupKey_of_mem_nodup hnd hx
    have hbq := ib q
    simp only [bucketD, hlk, Option.getD_some] at hbq
    exact hbq
  have hflat := flatBuckets_eq_gather ops (addAll ops).map hmem
  show flatBuckets (addAll ops).map = gatherByKeys ops (specKeys ops)
  rw [hflat, ik]

/-- Witness for C6: three distinct handlers at priorities 10, 0, 10 come
out as `[hB, hA, hC]` over the sorted key list `[0, 10]`. -/
theorem iterate_yields_priority_then_insertion_order_witness :
    (([(hA, 10), (hB, 0), (hC, 10)] : List (Handler × Nat)).map
        (fun x => x.1)).Nodup ∧
    (List.Sorted (· < ·) (specKeys [(hA, 10), (hB, 0), (hC, 10)]) ∧
      (addAll [(hA, 10), (hB, 0), (hC, 10)]).iter_handlers
        = gatherByKeys [(hA, 10), (hB, 0), (hC, 10)]
            (specKeys [(hA, 10), (hB, 0), (hC, 10)])) :=
  ⟨by decide, iterate_yields_priority_then_insertion_order _ (by decide)⟩
